import Mathlib

set_option linter.unusedVariables false

/-
  Verification of the orchestration core of a chat video-download bot
  (src/index.js).  The JavaScript functions are shallowly embedded as
  executable Lean definitions: filesystem snapshots are lists of file
  names (with modification times where relevant), external-process
  outcomes are explicit parameters, and the regular-expression tests
  used by the code are implemented directly over character lists.
-/

/- ### Character and string helpers -/

/-- Case-sensitive list prefix test (JavaScript String.prototype.startsWith). -/
def isPrefixB : List Char → List Char → Bool
  | [], _ => true
  | _ :: _, [] => false
  | c :: cs, d :: ds => c == d && isPrefixB cs ds

/-- Substring containment over character lists (String.prototype.includes). -/
def isInfixB (needle : List Char) : List Char → Bool
  | [] => isPrefixB needle []
  | d :: ds => isPrefixB needle (d :: ds) || isInfixB needle ds

/-- List suffix test. -/
def isSuffixB (pat l : List Char) : Bool :=
  isPrefixB pat.reverse l.reverse

/-- JavaScript String.prototype.toLowerCase restricted to the ASCII folding
    performed by Char.toLower. -/
def lowerString (s : String) : List Char :=
  s.data.map Char.toLower

/-- startsWith on strings, as used for directory-name filters. -/
def startsWithB (pre s : String) : Bool :=
  isPrefixB pre.data s.data

/- ### Directory entries and the filename classification regexes -/

/-- A snapshot of one directory entry: its name and its mtimeMs stat. -/
structure DirEntry where
  name : String
  mtimeMs : Nat
  deriving DecidableEq, Repr

/-- Test for the partial-download suffix: regex `\.part$` with the i flag. -/
def isPartialName (name : String) : Bool :=
  isSuffixB ".part".data (lowerString name)

/-- Test for a recognized media container extension:
    regex `\.(mp4|mkv|webm|mov|m4v)$` with the i flag. -/
def hasMediaExt (name : String) : Bool :=
  isSuffixB ".mp4".data (lowerString name) ||
  isSuffixB ".mkv".data (lowerString name) ||
  isSuffixB ".webm".data (lowerString name) ||
  isSuffixB ".mov".data (lowerString name) ||
  isSuffixB ".m4v".data (lowerString name)

/-- Test for the conventional final container: regex `\.mp4$` with the i flag. -/
def isMp4Name (name : String) : Bool :=
  isSuffixB ".mp4".data (lowerString name)

/-- Scans zero or more digits followed by a dot (tail of the `\.f\d+\.` regex
    after its first mandatory digit). -/
def digitsThenDot : List Char → Bool
  | [] => false
  | c :: cs => if c == '.' then true else if c.isDigit then digitsThenDot cs else false

/-- Does the stream-format tag pattern `\.f\d+\.` match at the head of the
    (already lowercased) character list? -/
def fTagAt : List Char → Bool
  | '.' :: c :: d :: cs => c == 'f' && d.isDigit && digitsThenDot (d :: cs)
  | _ => false

/-- Scan for the format tag anywhere in the list. -/
def scanFTag : List Char → Bool
  | [] => false
  | c :: cs => fTagAt (c :: cs) || scanFTag cs

/-- Test for an intermediate stream file: regex `\.f\d+\.` with the i flag. -/
def isIntermediateName (name : String) : Bool :=
  scanFTag (lowerString name)

/- ### Sorting by modification time, newest first -/

/-- The comparator used by the resolvers: newer (larger mtimeMs) entries first. -/
def mtimeGe (a b : DirEntry) : Prop :=
  b.mtimeMs ≤ a.mtimeMs

instance : DecidableRel mtimeGe :=
  fun a b => inferInstanceAs (Decidable (b.mtimeMs ≤ a.mtimeMs))

instance : IsTotal DirEntry mtimeGe :=
  ⟨fun a b => Nat.le_total b.mtimeMs a.mtimeMs⟩

instance : IsTrans DirEntry mtimeGe :=
  ⟨fun _ _ _ hab hbc => Nat.le_trans hbc hab⟩

instance : IsRefl DirEntry mtimeGe :=
  ⟨fun a => Nat.le_refl a.mtimeMs⟩

/-- The JavaScript Array.prototype.sort call with comparator
    (a, b) => mtimeMs(b) - mtimeMs(a): sort by mtimeMs, newest first. -/
def sortByMtimeDesc (l : List DirEntry) : List DirEntry :=
  List.insertionSort mtimeGe l

/- ### resolveFileByPrefix (src/index.js lines 132-150) -/

/-- Embedding of resolveFileByPrefix: among directory entries whose name
    starts with the requested base name, drop partial downloads, sort newest
    first and return the first, or none when nothing matches. -/
def resolveFileByPrefix (base : String) (entries : List DirEntry) : Option String :=
  let matched :=
    sortByMtimeDesc
      ((entries.filter (fun e => startsWithB base e.name)).filter
        (fun e => !isPartialName e.name))
  match matched with
  | [] => none
  | m :: _ => some m.name

/- ### runAndResolveFile (src/index.js lines 242-277) -/

/-- The generic-prefix resolution branch of runAndResolveFile, reached when
    the requested output path does not exist: filter directory entries by the
    requested base name, drop partial downloads and non-media extensions,
    sort newest first, then prefer a clean (non-intermediate) mp4, else any
    clean entry, else report that only intermediate stream files were found;
    report not-found when no candidate matched at all. -/
def resolveGenericPrefix (requestedBase : String) (entries : List DirEntry) :
    Except String String :=
  let matched :=
    sortByMtimeDesc
      (((entries.filter (fun e => startsWithB requestedBase e.name)).filter
          (fun e => !isPartialName e.name)).filter
        (fun e => hasMediaExt e.name))
  if matched.isEmpty then
    Except.error "Download finished but output video file was not found."
  else
    let cleanMp4 := matched.find? (fun e => isMp4Name e.name && !isIntermediateName e.name)
    let cleanOther := matched.find? (fun e => !isIntermediateName e.name)
    match cleanMp4.orElse (fun _ => cleanOther) with
    | some e => Except.ok e.name
    | none => Except.error "Only intermediate stream files were found after download."

/-- Errors thrown inside a job.  A yt-dlp failure carries captured stderr
    text; errors constructed with new Error carry only a message (stderr is
    the empty string, which is falsy in JavaScript). -/
structure JsError where
  stderr : String
  message : String
  deriving DecidableEq, Repr

/-- The expression String(error.stderr or error.message or error): captured
    stderr when non-empty, otherwise the message. -/
def errorText (e : JsError) : String :=
  if e.stderr = "" then e.message else e.stderr

/-- Full embedding of runAndResolveFile: first await the download callback
    (its failure propagates), then return the requested output path when a
    file exists there, else run the generic-prefix directory resolution. -/
def runAndResolveFile (downloadResult : Except JsError Unit) (outputPathExists : Bool)
    (outputPath requestedBase : String) (entries : List DirEntry) :
    Except JsError String :=
  match downloadResult with
  | Except.error e => Except.error e
  | Except.ok _ =>
    if outputPathExists then
      Except.ok outputPath
    else
      match resolveGenericPrefix requestedBase entries with
      | Except.ok name => Except.ok name
      | Except.error msg => Except.error { stderr := "", message := msg }

/- ### downloadVideo (src/index.js lines 279-297) -/

/-- The merge-issue classifier of downloadVideo: case-insensitive substring
    inspection of the failure text. -/
def looksLikeMergeIssue (e : JsError) : Bool :=
  let m := lowerString (errorText e)
  isInfixB "ffmpeg".data m ||
  isInfixB "intermediate stream files".data m ||
  isInfixB "stream output was not found".data m

/-- Which download path was attempted (instrumentation of the orchestrator
    control flow). -/
inductive Attempt where
  | highQuality
  | progressive
  deriving DecidableEq, Repr

/-- One invocation of runAndResolveFile, summarized by the data it consumes:
    the awaited download outcome and the directory snapshot it resolves
    against. -/
structure RunParams where
  downloadResult : Except JsError Unit
  outputPathExists : Bool
  entries : List DirEntry

/-- Embedding of downloadVideo: try the high-quality merged path; on failure
    classify the error text and either retry once with the progressive
    fallback or rethrow.  The first component records the attempts made, in
    order. -/
def downloadVideo (outputPath requestedBase : String) (hq prog : RunParams) :
    List Attempt × Except JsError (String × Bool) :=
  match runAndResolveFile hq.downloadResult hq.outputPathExists outputPath requestedBase
      hq.entries with
  | Except.ok filePath => ([Attempt.highQuality], Except.ok (filePath, false))
  | Except.error e =>
    if looksLikeMergeIssue e then
      match runAndResolveFile prog.downloadResult prog.outputPathExists outputPath
          requestedBase prog.entries with
      | Except.ok filePath =>
        ([Attempt.highQuality, Attempt.progressive], Except.ok (filePath, true))
      | Except.error e2 =>
        ([Attempt.highQuality, Attempt.progressive], Except.error e2)
    else
      ([Attempt.highQuality], Except.error e)

/- ### mergeWithFfmpeg (src/index.js lines 173-211) -/

/-- Does a file with the given name exist in the filesystem snapshot? -/
def fsExists (fs : List String) (p : String) : Bool :=
  fs.contains p

/-- Embedding of safeDelete: remove the file when it exists. -/
def safeDelete (fs : List String) (p : String) : List String :=
  if fsExists fs p then fs.filter (fun n => n ≠ p) else fs

/-- The argument vector passed to the encoder subprocess. -/
def ffmpegArgs (videoPath audioPath outputPath : String) : List String :=
  ["-y", "-i", videoPath, "-i", audioPath, "-c:v", "copy", "-c:a", "aac",
   "-b:a", "192k", "-movflags", "+faststart", outputPath]

/-- Outcome of a completed encoder subprocess: its exit code and captured
    stderr text. -/
structure ProcResult where
  exitCode : Int
  stderr : String
  deriving Repr

/-- Embedding of mergeWithFfmpeg for runs where the subprocess spawns and
    closes.  The subprocess is a function from the filesystem it starts in
    to its outcome and the filesystem it leaves behind.  The output path is
    deleted before the spawn; the promise resolves only when the exit code
    is zero and the output file exists, and otherwise rejects with the
    captured stderr, or with a generic exit-code message when stderr is
    empty. -/
def mergeWithFfmpeg (videoPath audioPath outputPath : String)
    (run : List String → List String → ProcResult × List String)
    (fs0 : List String) : Except String Unit × List String :=
  let fs1 := safeDelete fs0 outputPath
  let (res, fs2) := run (ffmpegArgs videoPath audioPath outputPath) fs1
  if res.exitCode = 0 ∧ fsExists fs2 outputPath then
    (Except.ok (), fs2)
  else
    (Except.error
      (if res.stderr ≠ "" then res.stderr
       else "ffmpeg exited with code " ++ toString res.exitCode), fs2)

/- ### downloadHighQualityMerged (src/index.js lines 213-240) -/

/-- Embedding of cleanupByPrefix: delete every file whose name starts with
    the given base name. -/
def cleanupByPrefix (base : String) (fs : List String) : List String :=
  fs.filter (fun n => !startsWithB base n)

/-- Embedding of downloadHighQualityMerged.  The video fetch, audio fetch
    and merge steps are functions from the current filesystem snapshot to
    the snapshot they leave and their outcome; the finally block sweeps both
    temporary stream prefixes on every control path before the result or
    error leaves the function. -/
def downloadHighQualityMerged (outputPath : String) (now : Nat)
    (videoRun audioRun : List String → List String × Except JsError String)
    (mergeRun : String → String → List String → List String × Except JsError Unit)
    (fs0 : List String) : List String × Except JsError Unit :=
  let tempPref := outputPath ++ ".hq_" ++ toString now
  let videoPref := tempPref ++ ".video"
  let audioPref := tempPref ++ ".audio"
  let cleanup := fun fs => cleanupByPrefix audioPref (cleanupByPrefix videoPref fs)
  match videoRun fs0 with
  | (fs1, Except.error e) => (cleanup fs1, Except.error e)
  | (fs1, Except.ok videoPath) =>
    match audioRun fs1 with
    | (fs2, Except.error e) => (cleanup fs2, Except.error e)
    | (fs2, Except.ok audioPath) =>
      match mergeRun videoPath audioPath fs2 with
      | (fs3, Except.error e) => (cleanup fs3, Except.error e)
      | (fs3, Except.ok _) => (cleanup fs3, Except.ok ())

/- ### startCountdownStatus (src/index.js lines 66-108) -/

/-- The fixed countdown cycle length. -/
def cycleSeconds : Int := 30

/-- One processed tick of the countdown: decrement, wrapping back to the
    cycle length when the value would reach zero or below. -/
def tickRemaining (r : Int) : Int :=
  let r1 := r - 1
  if r1 ≤ 0 then cycleSeconds else r1

/-- The remaining-seconds counter after n processed ticks, starting from the
    initial cycle length. -/
def remainingAfter : Nat → Int
  | 0 => cycleSeconds
  | n + 1 => tickRemaining (remainingAfter n)

/-- The mutable state of one countdown status session: the remaining-seconds
    counter and the flag that serializes message edits. -/
structure TimerState where
  remaining : Int
  updating : Bool
  deriving DecidableEq, Repr

/-- The initial session state. -/
def initialTimerState : TimerState :=
  { remaining := cycleSeconds, updating := false }

/-- The synchronous front of the interval callback: a tick that arrives while
    an edit is pending is dropped; otherwise the flag is raised and the
    counter stepped.  The Boolean reports whether a message edit was
    started. -/
def fireStep (s : TimerState) : TimerState × Bool :=
  if s.updating then (s, false)
  else ({ remaining := tickRemaining s.remaining, updating := true }, true)

/-- Completion of the awaited message edit (the finally clause): the flag is
    cleared whether or not the edit succeeded. -/
def editDoneStep (s : TimerState) (editSucceeded : Bool) : TimerState :=
  { s with updating := false }

/- ### The YouTube URL regex (src/index.js line 39) and extractYouTubeUrl -/

/-- The character class of a video id: regex `[\w-]`, that is ASCII letters,
    digits, underscore or hyphen. -/
def isIdChar (c : Char) : Bool :=
  c.isAlpha || c.isDigit || c == '_' || c == '-'

/-- The JavaScript regex whitespace class `\s`. -/
def isJsSpace (c : Char) : Bool :=
  c == ' ' || c == '\t' || c == '\n' || c == '\r' ||
  c.val == 0x0b || c.val == 0x0c || c.val == 0xa0 || c.val == 0x1680 ||
  (0x2000 ≤ c.val && c.val ≤ 0x200a) ||
  c.val == 0x2028 || c.val == 0x2029 || c.val == 0x202f ||
  c.val == 0x205f || c.val == 0x3000 || c.val == 0xfeff

/-- Match a literal (given in lowercase) case-insensitively at the head of
    the input, returning the remainder on success. -/
def stripPrefCI : List Char → List Char → Option (List Char)
  | [], s => some s
  | _ :: _, [] => none
  | l :: ls, c :: cs => if l == c.toLower then stripPrefCI ls cs else none

/-- Consume exactly n id characters (regex `[\w-]{n}`). -/
def takeId : Nat → List Char → Option (List Char)
  | 0, s => some s
  | _ + 1, [] => none
  | n + 1, c :: cs => if isIdChar c then takeId n cs else none

/-- Consume the maximal run of non-whitespace characters (regex `[^\s]*`,
    greedy with nothing following), returning the remainder. -/
def dropNonSpace : List Char → List Char
  | [] => []
  | c :: cs => if isJsSpace c then c :: cs else dropNonSpace cs

/-- Match one host alternative: the given literal, then exactly eleven id
    characters, then the greedy non-whitespace tail. -/
def matchHostBranch (lit : List Char) (s : List Char) : Option (List Char) :=
  ((stripPrefCI lit s).bind (takeId 11)).map dropNonSpace

/-- The alternation `youtube.com/watch?v=[\w-]{11}[^\s]*|youtu.be/[\w-]{11}[^\s]*`,
    tried left to right. -/
def matchHosts (s : List Char) : Option (List Char) :=
  (matchHostBranch "youtube.com/watch?v=".data s).orElse
    (fun _ => matchHostBranch "youtu.be/".data s)

/-- The optional `(?:www\.)?` group followed by the host alternation; the
    greedy option is tried first, as the regex engine would. -/
def matchAfterScheme (s : List Char) : Option (List Char) :=
  match stripPrefCI "www.".data s with
  | some r => (matchHosts r).orElse (fun _ => matchHosts s)
  | none => matchHosts s

/-- The `s?://` part after the literal http, greedy alternative first. -/
def matchAfterHttp (r : List Char) : Option (List Char) :=
  ((stripPrefCI "s://".data r).bind matchAfterScheme).orElse
    (fun _ => (stripPrefCI "://".data r).bind matchAfterScheme)

/-- Attempt the whole pattern anchored at the head of s, returning the
    unconsumed remainder on success. -/
def matchHere (s : List Char) : Option (List Char) :=
  (stripPrefCI "http".data s).bind matchAfterHttp

/-- Leftmost match: try every start position from the left and return the
    matched substring of the first position that succeeds. -/
def firstMatch : List Char → Option (List Char)
  | [] => none
  | c :: cs =>
    match matchHere (c :: cs) with
    | some rem => some ((c :: cs).take ((c :: cs).length - rem.length))
    | none => firstMatch cs

/-- Embedding of extractYouTubeUrl; a missing or empty text is falsy and
    yields null at once, otherwise the first regex match (the capture group
    spans the whole match) is returned. -/
def extractYouTubeUrl (text : Option String) : Option String :=
  match text with
  | none => none
  | some t =>
    if t = "" then none
    else (firstMatch t.data).map (fun cs => String.mk cs)

/- ### The message handler (src/index.js lines 299-347) -/

/-- The hard size ceiling for sending a video over the chat transport. -/
def TELEGRAM_VIDEO_LIMIT_BYTES : Nat := 50 * 1024 * 1024

/-- Embedding of buildOutputPath (the downloads directory is elided; names
    are relative to it). -/
def buildOutputPath (chatId messageId now : Nat) : String :=
  "video_" ++ toString chatId ++ "_" ++ toString messageId ++ "_" ++
    toString now ++ ".mp4"

/-- The one-time notice sent when the progressive fallback produced the
    delivered file. -/
def fallbackNotice : String :=
  "Sent fallback quality because ffmpeg merge was unavailable. Set FFMPEG_PATH in .env to enable high quality merge."

/-- Observable actions the message handler performs, in order. -/
inductive HandlerAction where
  | startStatus (chatId : Nat)
  | stopStatus (finalText : String)
  | sendMessage (chatId : Nat) (text : String)
  | sendVideo (chatId : Nat) (filePath : String)
  | deleteFile (filePath : String)
  | sweepByOutputPath (outputPath : String)
  deriving DecidableEq, Repr

/-- Embedding of the message handler for runs in which the chat-transport
    calls themselves succeed: extract a link from the (possibly missing)
    message text and return at once when there is none; otherwise start the
    status session and act on the downloadVideo outcome — on failure stop
    with the generic failure text, notify, and sweep the output prefix; on
    success optionally send the fallback notice, then either take the
    too-large branch (stop, notify, delete, never send) or send the video,
    stop with the success text and delete the local copy. -/
def handleMessage (msgText : Option String) (chatId messageId now : Nat)
    (downloadResult : Except JsError (String × Bool)) (fileSize : Nat) :
    List HandlerAction :=
  let text := msgText.getD ""
  match extractYouTubeUrl (some text) with
  | none => []
  | some _url =>
    let outputPath := buildOutputPath chatId messageId now
    match downloadResult with
    | Except.error _ =>
      [HandlerAction.startStatus chatId,
       HandlerAction.stopStatus "Failed to download or send the video.",
       HandlerAction.sendMessage chatId "Failed to download or send the video.",
       HandlerAction.sweepByOutputPath outputPath]
    | Except.ok (filePath, usedFallback) =>
      [HandlerAction.startStatus chatId] ++
      (if usedFallback then [HandlerAction.sendMessage chatId fallbackNotice] else []) ++
      (if fileSize > TELEGRAM_VIDEO_LIMIT_BYTES then
        [HandlerAction.stopStatus "Video too large to send.",
         HandlerAction.sendMessage chatId "Video too large to send.",
         HandlerAction.deleteFile filePath]
      else
        [HandlerAction.sendVideo chatId filePath,
         HandlerAction.stopStatus "Video sent successfully.",
         HandlerAction.deleteFile filePath])

/- ### Statement abbreviations for the resolver claims -/

/-- A directory entry that survives all three filters of the generic
    resolution: prefix match, not a partial download, recognized media
    extension. -/
def isCandidateName (requestedBase : String) (e : DirEntry) : Bool :=
  startsWithB requestedBase e.name && !isPartialName e.name && hasMediaExt e.name

/-- A candidate that moreover carries no intermediate stream-format tag. -/
def isCleanCandidate (requestedBase : String) (e : DirEntry) : Bool :=
  isCandidateName requestedBase e && !isIntermediateName e.name

/-- The shape every match of the YouTube URL regex has: an http or https
    scheme, an optional www. part, one of the two host alternatives, a video
    id of exactly eleven word-or-hyphen characters, and a whitespace-free
    tail (literal comparisons are up to ASCII case). -/
def YouTubeMatchShape (m : List Char) : Prop :=
  ∃ scheme www host vid tl,
    m = scheme ++ www ++ host ++ vid ++ tl ∧
    (scheme.map Char.toLower = "http://".data ∨
      scheme.map Char.toLower = "https://".data) ∧
    (www.map Char.toLower = "www.".data ∨ www = []) ∧
    (host.map Char.toLower = "youtube.com/watch?v=".data ∨
      host.map Char.toLower = "youtu.be/".data) ∧
    vid.length = 11 ∧ (∀ c ∈ vid, isIdChar c = true) ∧
    (∀ c ∈ tl, isJsSpace c = false)

/- ### Helper lemmas -/

theorem sortByMtimeDesc_perm (l : List DirEntry) : (sortByMtimeDesc l).Perm l :=
  List.perm_insertionSort mtimeGe l

theorem sortByMtimeDesc_sorted (l : List DirEntry) :
    (sortByMtimeDesc l).Sorted mtimeGe :=
  List.sorted_insertionSort mtimeGe l

theorem sorted_head_max {l : List DirEntry} {m : DirEntry} {ms : List DirEntry}
    (hs : l.Sorted mtimeGe) (h : l = m :: ms) :
    ∀ y ∈ l, y.mtimeMs ≤ m.mtimeMs := by
  subst h
  intro y hy
  rcases List.mem_cons.mp hy with rfl | hyt
  · exact Nat.le_refl _
  · exact List.rel_of_sorted_cons hs y hyt

theorem sorted_find?_max {l : List DirEntry} {p : DirEntry → Bool} {x : DirEntry}
    (hs : l.Sorted mtimeGe) (hf : l.find? p = some x) :
    ∀ y ∈ l, p y = true → y.mtimeMs ≤ x.mtimeMs := by
  induction l with
  | nil => simp at hf
  | cons a t ih =>
    intro y hy hpy
    cases hpa : p a with
    | true =>
      rw [List.find?_cons_of_pos t hpa] at hf
      injection hf with h
      subst h
      rcases List.mem_cons.mp hy with rfl | hyt
      · exact Nat.le_refl _
      · exact List.rel_of_sorted_cons hs y hyt
    | false =>
      rw [List.find?_cons_of_neg t (by simp [hpa])] at hf
      rcases List.mem_cons.mp hy with rfl | hyt
      · rw [hpa] at hpy; cases hpy
      · exact ih hs.of_cons hf y hyt hpy

theorem remainingAfter_closed (n : Nat) :
    remainingAfter n = 30 - ((n % 30 : Nat) : Int) := by
  induction n with
  | zero => simp [remainingAfter, cycleSeconds]
  | succ n ih =>
    rw [remainingAfter, ih, tickRemaining]
    simp only [cycleSeconds]
    split <;> omega

/-- C7: the Progress Reporter counter starts at 30, every processed tick
    keeps it between 1 and 30, a tick decrements it and wraps to 30 instead
    of reaching zero or below, and the value after n processed ticks follows
    the cyclic sequence 30, 29, ..., 1, 30, ... -/
theorem countdown_counter_cycle :
    remainingAfter 0 = 30 ∧
    (∀ n : Nat, remainingAfter n = 30 - ((n % 30 : Nat) : Int)) ∧
    (∀ n : Nat, 1 ≤ remainingAfter n ∧ remainingAfter n ≤ 30) ∧
    (∀ n : Nat, remainingAfter (n + 1) =
      if remainingAfter n - 1 ≤ 0 then 30 else remainingAfter n - 1) := by
  refine ⟨rfl, remainingAfter_closed, fun n => ?_, fun n => ?_⟩
  · rw [remainingAfter_closed]
    have : n % 30 < 30 := Nat.mod_lt n (by norm_num)
    omega
  · rw [remainingAfter]
    rfl

/-- C9: a timer tick that fires while the updating flag is raised leaves the
    state untouched and starts no edit; a tick that proceeds steps the
    counter and starts an edit; and completing the awaited edit clears the
    flag without touching the counter, whether or not the edit succeeded. -/
theorem tick_mutual_exclusion :
    (∀ s : TimerState, s.updating = true → fireStep s = (s, false)) ∧
    (∀ s : TimerState, s.updating = false →
      fireStep s = ({ remaining := tickRemaining s.remaining, updating := true }, true)) ∧
    (∀ (s : TimerState) (editSucceeded : Bool),
      (editDoneStep s editSucceeded).updating = false ∧
      (editDoneStep s editSucceeded).remaining = s.remaining) := by
  refine ⟨fun s h => ?_, fun s h => ?_, fun s ok => ⟨rfl, rfl⟩⟩
  · simp [fireStep, h]
  · simp [fireStep, h]

/-- Witness for C9 at concrete states. -/
theorem tick_mutual_exclusion_witness :
    fireStep { remaining := 7, updating := true } =
      ({ remaining := 7, updating := true }, false) ∧
    fireStep { remaining := 7, updating := false } =
      ({ remaining := 6, updating := true }, true) ∧
    (editDoneStep { remaining := 6, updating := true } false).updating = false ∧
    (editDoneStep { remaining := 6, updating := true } false).remaining = 6 :=
  ⟨tick_mutual_exclusion.1 { remaining := 7, updating := true } rfl,
   tick_mutual_exclusion.2.1 { remaining := 7, updating := false } rfl,
   (tick_mutual_exclusion.2.2 { remaining := 6, updating := true } false).1,
   (tick_mutual_exclusion.2.2 { remaining := 6, updating := true } false).2⟩

/-- C4: on a resolved output file the handler takes the too-large branch
    (stop with the too-large status, notify, delete, and never send the
    attachment) exactly when the file size strictly exceeds the 50 MiB
    ceiling, and a file of exactly 50 MiB is sent as an attachment. -/
theorem size_limit_branch (msgText : Option String) (chatId messageId now : Nat)
    (filePath : String) (usedFallback : Bool) (fileSize : Nat)
    (hlink : extractYouTubeUrl (some (msgText.getD "")) ≠ none) :
    TELEGRAM_VIDEO_LIMIT_BYTES = 50 * 1024 * 1024 ∧
    ((HandlerAction.stopStatus "Video too large to send." ∈
        handleMessage msgText chatId messageId now
          (Except.ok (filePath, usedFallback)) fileSize ∧
      HandlerAction.sendMessage chatId "Video too large to send." ∈
        handleMessage msgText chatId messageId now
          (Except.ok (filePath, usedFallback)) fileSize ∧
      HandlerAction.deleteFile filePath ∈
        handleMessage msgText chatId messageId now
          (Except.ok (filePath, usedFallback)) fileSize ∧
      HandlerAction.sendVideo chatId filePath ∉
        handleMessage msgText chatId messageId now
          (Except.ok (filePath, usedFallback)) fileSize) ↔
      fileSize > TELEGRAM_VIDEO_LIMIT_BYTES) ∧
    (HandlerAction.sendVideo chatId filePath ∈
      handleMessage msgText chatId messageId now
        (Except.ok (filePath, usedFallback)) (50 * 1024 * 1024)) := by
  rcases hurl : extractYouTubeUrl (some (msgText.getD "")) with _ | url
  · exact absurd hurl hlink
  · refine ⟨rfl, ?_, ?_⟩
    · cases usedFallback <;> by_cases hsz : fileSize > TELEGRAM_VIDEO_LIMIT_BYTES <;>
        simp [handleMessage, hurl, hsz]
    · cases usedFallback <;>
        simp [handleMessage, hurl, TELEGRAM_VIDEO_LIMIT_BYTES]

/-- Witness for C4: a link-bearing message with a file of exactly 50 MiB is
    sent as an attachment. -/
theorem size_limit_branch_witness :
    HandlerAction.sendVideo 1 "f.mp4" ∈
      handleMessage (some "https://youtu.be/dQw4w9WgXcQ") 1 2 3
        (Except.ok ("f.mp4", false)) (50 * 1024 * 1024) :=
  (size_limit_branch (some "https://youtu.be/dQw4w9WgXcQ") 1 2 3 "f.mp4" false 0
    (by decide)).2.2

/-- C8: the end-to-end extraction scenario returns exactly the embedded
    link, and a message whose text yields no extracted link makes the
    handler return before performing any action. -/
theorem extract_url_scenario :
    extractYouTubeUrl (some "check this out https://youtu.be/dQw4w9WgXcQ?t=5 thanks") =
      some "https://youtu.be/dQw4w9WgXcQ?t=5" ∧
    (∀ (msgText : Option String) (chatId messageId now : Nat)
        (downloadResult : Except JsError (String × Bool)) (fileSize : Nat),
      extractYouTubeUrl (some (msgText.getD "")) = none →
      handleMessage msgText chatId messageId now downloadResult fileSize = []) := by
  refine ⟨by decide, ?_⟩
  intro msgText chatId messageId now downloadResult fileSize h
  simp [handleMessage, h]

/-- Witness for C8: a link-free message produces no handler actions. -/
theorem extract_url_scenario_witness :
    handleMessage (some "no links here") 1 2 3
      (Except.error { stderr := "", message := "x" }) 0 = [] :=
  extract_url_scenario.2 (some "no links here") 1 2 3
    (Except.error { stderr := "", message := "x" }) 0 (by decide)

/-- C1: when the high-quality path fails with error e, the orchestrator
    attempts the progressive path exactly once if and only if the lowercased
    failure text (stderr preferred, else message) contains one of the three
    merge-issue markers; without a marker the progressive path is never
    attempted and the original error propagates unchanged; the high-quality
    path is attempted exactly once in every case. -/
theorem fallback_classification (outputPath requestedBase : String)
    (e : JsError) (hq prog : RunParams)
    (hfail : runAndResolveFile hq.downloadResult hq.outputPathExists outputPath
      requestedBase hq.entries = Except.error e) :
    ((downloadVideo outputPath requestedBase hq prog).1.count Attempt.highQuality = 1) ∧
    ((downloadVideo outputPath requestedBase hq prog).1.count Attempt.progressive =
      if isInfixB "ffmpeg".data (lowerString (errorText e)) ||
         isInfixB "intermediate stream files".data (lowerString (errorText e)) ||
         isInfixB "stream output was not found".data (lowerString (errorText e))
      then 1 else 0) ∧
    ((isInfixB "ffmpeg".data (lowerString (errorText e)) ||
      isInfixB "intermediate stream files".data (lowerString (errorText e)) ||
      isInfixB "stream output was not found".data (lowerString (errorText e))) = false →
      downloadVideo outputPath requestedBase hq prog =
        ([Attempt.highQuality], Except.error e)) := by
  have hmarker : looksLikeMergeIssue e =
      (isInfixB "ffmpeg".data (lowerString (errorText e)) ||
       isInfixB "intermediate stream files".data (lowerString (errorText e)) ||
       isInfixB "stream output was not found".data (lowerString (errorText e))) := rfl
  rw [← hmarker]
  cases hm : looksLikeMergeIssue e with
  | true =>
    cases hp : runAndResolveFile prog.downloadResult prog.outputPathExists outputPath
        requestedBase prog.entries <;>
      simp [downloadVideo, hfail, hm, hp, List.count_cons]
  | false =>
    simp [downloadVideo, hfail, hm, List.count_cons]

/-- Witness for C1: a high-quality failure with no marker in its text
    propagates unchanged with no fallback attempt. -/
theorem fallback_classification_witness :
    downloadVideo "video_1.mp4" "video_1"
      { downloadResult := Except.error { stderr := "", message := "network unreachable" },
        outputPathExists := false, entries := [] }
      { downloadResult := Except.ok (), outputPathExists := true, entries := [] } =
      ([Attempt.highQuality],
        Except.error { stderr := "", message := "network unreachable" }) :=
  (fallback_classification "video_1.mp4" "video_1"
    { stderr := "", message := "network unreachable" }
    { downloadResult := Except.error { stderr := "", message := "network unreachable" },
      outputPathExists := false, entries := [] }
    { downloadResult := Except.ok (), outputPathExists := true, entries := [] }
    rfl).2.2 (by decide)

theorem fsExists_safeDelete (fs : List String) (p : String) :
    fsExists (safeDelete fs p) p = false := by
  unfold safeDelete
  split
  · rw [fsExists, Bool.eq_false_iff]
    intro hc
    rcases List.mem_filter.mp (List.elem_iff.mp hc) with ⟨-, hne⟩
    simp at hne
  · rename_i h
    simpa using h

/-- C5: mergeWithFfmpeg runs the encoder on a filesystem from which any
    pre-existing output file has been deleted, resolves exactly when the
    encoder exits with code zero and the output file exists afterwards, and
    otherwise rejects with the captured stderr text, or with the generic
    exit-code message when no stderr output was captured. -/
theorem merge_contract (videoPath audioPath outputPath : String)
    (run : List String → List String → ProcResult × List String)
    (fs0 : List String) :
    fsExists (safeDelete fs0 outputPath) outputPath = false ∧
    ((mergeWithFfmpeg videoPath audioPath outputPath run fs0).1 = Except.ok () ↔
      (run (ffmpegArgs videoPath audioPath outputPath) (safeDelete fs0 outputPath)).1.exitCode = 0 ∧
      fsExists (run (ffmpegArgs videoPath audioPath outputPath) (safeDelete fs0 outputPath)).2
        outputPath = true) ∧
    (∀ msg : String,
      (mergeWithFfmpeg videoPath audioPath outputPath run fs0).1 = Except.error msg →
      ((run (ffmpegArgs videoPath audioPath outputPath) (safeDelete fs0 outputPath)).1.stderr ≠ "" ∧
        msg = (run (ffmpegArgs videoPath audioPath outputPath) (safeDelete fs0 outputPath)).1.stderr) ∨
      ((run (ffmpegArgs videoPath audioPath outputPath) (safeDelete fs0 outputPath)).1.stderr = "" ∧
        msg = "ffmpeg exited with code " ++
          toString (run (ffmpegArgs videoPath audioPath outputPath)
            (safeDelete fs0 outputPath)).1.exitCode)) := by
  refine ⟨fsExists_safeDelete fs0 outputPath, ?_, ?_⟩
  · simp only [mergeWithFfmpeg]
    rcases hrun : run (ffmpegArgs videoPath audioPath outputPath) (safeDelete fs0 outputPath)
      with ⟨res, fs2⟩
    simp only [hrun]
    split
    · rename_i h
      simpa using h
    · rename_i h
      simpa using h
  · intro msg
    simp only [mergeWithFfmpeg]
    rcases hrun : run (ffmpegArgs videoPath audioPath outputPath) (safeDelete fs0 outputPath)
      with ⟨res, fs2⟩
    simp only [hrun]
    split
    · intro h
      cases h
    · intro h
      injection h with h
      by_cases hs : res.stderr = ""
      · right
        refine ⟨hs, ?_⟩
        rw [← h]
        simp [hs]
      · left
        refine ⟨hs, ?_⟩
        rw [← h]
        simp [hs]

/-- Witness for C5 at a concrete failing run: exit code 1 with empty stderr
    yields the generic exit-code message. -/
theorem merge_contract_witness :
    (mergeWithFfmpeg "v.mp4" "a.m4a" "out.mp4"
        (fun _ fs => ({ exitCode := 1, stderr := "" }, fs)) ["out.mp4"]).1 =
      Except.error ("ffmpeg exited with code " ++ toString (1 : Int)) := by
  rcases (merge_contract "v.mp4" "a.m4a" "out.mp4"
      (fun _ fs => ({ exitCode := 1, stderr := "" }, fs)) ["out.mp4"]).2.2
      "ffmpeg exited with code 1" rfl with h | h
  · exact (h.1 rfl).elim
  · rw [← h.2]
    rfl

theorem cleanup_all_clean (v a : String) (fs : List String) :
    (cleanupByPrefix a (cleanupByPrefix v fs)).all
      (fun n => !(startsWithB v n || startsWithB a n)) = true := by
  rw [List.all_eq_true]
  intro n hn
  rw [cleanupByPrefix, List.mem_filter] at hn
  obtain ⟨hn1, ha⟩ := hn
  rw [cleanupByPrefix, List.mem_filter] at hn1
  obtain ⟨_, hv⟩ := hn1
  simp only [Bool.not_eq_true'] at ha hv
  simp [ha, hv]

/-- C6: whatever the outcomes of the video fetch, audio fetch and merge
    steps, the filesystem downloadHighQualityMerged leaves behind holds no
    file whose name starts with the video-stream or the audio-stream
    temporary prefix of the job. -/
theorem hq_cleanup_unconditional (outputPath : String) (now : Nat)
    (videoRun audioRun : List String → List String × Except JsError String)
    (mergeRun : String → String → List String → List String × Except JsError Unit)
    (fs0 : List String) :
    ((downloadHighQualityMerged outputPath now videoRun audioRun mergeRun fs0).1.all
      (fun n => !(startsWithB (outputPath ++ ".hq_" ++ toString now ++ ".video") n ||
                  startsWithB (outputPath ++ ".hq_" ++ toString now ++ ".audio") n))) = true := by
  simp only [downloadHighQualityMerged]
  rcases h1 : videoRun fs0 with ⟨fs1, r1⟩
  cases r1 with
  | error e =>
    exact cleanup_all_clean (outputPath ++ ".hq_" ++ toString now ++ ".video")
      (outputPath ++ ".hq_" ++ toString now ++ ".audio") fs1
  | ok videoPath =>
    rcases h2 : audioRun fs1 with ⟨fs2, r2⟩
    simp only [h2]
    cases r2 with
    | error e =>
      exact cleanup_all_clean (outputPath ++ ".hq_" ++ toString now ++ ".video")
        (outputPath ++ ".hq_" ++ toString now ++ ".audio") fs2
    | ok audioPath =>
      rcases h3 : mergeRun videoPath audioPath fs2 with ⟨fs3, r3⟩
      simp only [h3]
      cases r3 <;>
        exact cleanup_all_clean (outputPath ++ ".hq_" ++ toString now ++ ".video")
          (outputPath ++ ".hq_" ++ toString now ++ ".audio") fs3

theorem candidates_filter (requestedBase : String) (entries : List DirEntry) :
    (((entries.filter (fun e => startsWithB requestedBase e.name)).filter
        (fun e => !isPartialName e.name)).filter
      (fun e => hasMediaExt e.name)) =
      entries.filter (fun e => isCandidateName requestedBase e) := by
  rw [List.filter_filter, List.filter_filter]
  refine List.filter_congr ?_
  intro e he
  rw [isCandidateName]
  cases h1 : startsWithB requestedBase e.name <;>
  cases h2 : isPartialName e.name <;>
  cases h3 : hasMediaExt e.name <;> rfl

theorem mem_sorted_candidates {requestedBase : String} {entries : List DirEntry}
    {e : DirEntry} :
    e ∈ sortByMtimeDesc (entries.filter (fun x => isCandidateName requestedBase x)) ↔
      e ∈ entries ∧ isCandidateName requestedBase e = true := by
  rw [(sortByMtimeDesc_perm _).mem_iff, List.mem_filter]

theorem resolveGenericPrefix_ok_spec (requestedBase : String)
    (entries : List DirEntry) (fname : String)
    (hok : resolveGenericPrefix requestedBase entries = Except.ok fname) :
    ∃ e ∈ entries, e.name = fname ∧ isCleanCandidate requestedBase e = true ∧
      ((isMp4Name e.name = true ∧
        (∀ e2 ∈ entries, isCleanCandidate requestedBase e2 = true →
          isMp4Name e2.name = true → e2.mtimeMs ≤ e.mtimeMs)) ∨
       (isMp4Name e.name = false ∧
        (∀ e2 ∈ entries, isCleanCandidate requestedBase e2 = true →
          isMp4Name e2.name = false) ∧
        (∀ e2 ∈ entries, isCleanCandidate requestedBase e2 = true →
          e2.mtimeMs ≤ e.mtimeMs))) := by
  rw [resolveGenericPrefix, candidates_filter] at hok
  simp only at hok
  cases hm4 : (sortByMtimeDesc (entries.filter fun e => isCandidateName requestedBase e)).find?
      (fun e => isMp4Name e.name && !isIntermediateName e.name) with
  | some m =>
    have hmem := List.mem_of_find?_eq_some hm4
    have hp := List.find?_some hm4
    rw [Bool.and_eq_true, Bool.not_eq_true'] at hp
    have hmax := sorted_find?_max (sortByMtimeDesc_sorted _) hm4
    have hSne : ((sortByMtimeDesc (entries.filter fun e =>
        isCandidateName requestedBase e)).isEmpty) = false := by
      cases hl : sortByMtimeDesc (entries.filter fun e => isCandidateName requestedBase e) with
      | nil => rw [hl] at hmem; cases hmem
      | cons a t => rfl
    rw [if_neg (by simp [hSne]), hm4] at hok
    simp only [Option.orElse] at hok
    injection hok with hok
    rcases mem_sorted_candidates.mp hmem with ⟨hment, hcand⟩
    refine ⟨m, hment, hok ▸ rfl, ?_, Or.inl ⟨hp.1, ?_⟩⟩
    · rw [isCleanCandidate, Bool.and_eq_true, Bool.not_eq_true']
      exact ⟨hcand, hp.2⟩
    · intro e2 he2 hclean hmp4
      rw [isCleanCandidate, Bool.and_eq_true, Bool.not_eq_true'] at hclean
      exact hmax e2 (mem_sorted_candidates.mpr ⟨he2, hclean.1⟩)
        (by rw [Bool.and_eq_true, Bool.not_eq_true']; exact ⟨hmp4, hclean.2⟩)
  | none =>
    have hnomp4 := List.find?_eq_none.mp hm4
    cases hoth : (sortByMtimeDesc (entries.filter fun e => isCandidateName requestedBase e)).find?
        (fun e => !isIntermediateName e.name) with
    | none =>
      by_cases hemp : ((sortByMtimeDesc (entries.filter fun e =>
          isCandidateName requestedBase e)).isEmpty) = true
      · rw [if_pos (by simp [hemp])] at hok; cases hok
      · rw [if_neg (by simpa using hemp), hm4, hoth] at hok
        simp only [Option.orElse] at hok
        cases hok
    | some m =>
      have hmem := List.mem_of_find?_eq_some hoth
      have hp := List.find?_some hoth
      rw [Bool.not_eq_true'] at hp
      have hmax := sorted_find?_max (sortByMtimeDesc_sorted _) hoth
      have hSne : ((sortByMtimeDesc (entries.filter fun e =>
          isCandidateName requestedBase e)).isEmpty) = false := by
        cases hl : sortByMtimeDesc (entries.filter fun e => isCandidateName requestedBase e) with
        | nil => rw [hl] at hmem; cases hmem
        | cons a t => rfl
      rw [if_neg (by simp [hSne]), hm4, hoth] at hok
      simp only [Option.orElse] at hok
      injection hok with hok
      rcases mem_sorted_candidates.mp hmem with ⟨hment, hcand⟩
      have hm4false : isMp4Name m.name = false := by
        have := hnomp4 m hmem
        rw [Bool.and_eq_true] at this
        cases hmp : isMp4Name m.name
        · rfl
        · exact absurd ⟨hmp, by rw [Bool.not_eq_true']; exact hp⟩ this
      refine ⟨m, hment, hok ▸ rfl, ?_, Or.inr ⟨hm4false, ?_, ?_⟩⟩
      · rw [isCleanCandidate, Bool.and_eq_true, Bool.not_eq_true']
        exact ⟨hcand, hp⟩
      · intro e2 he2 hclean
        rw [isCleanCandidate, Bool.and_eq_true, Bool.not_eq_true'] at hclean
        have hin := mem_sorted_candidates.mpr ⟨he2, hclean.1⟩
        have := hnomp4 e2 hin
        rw [Bool.and_eq_true] at this
        cases hmp : isMp4Name e2.name
        · rfl
        · exact absurd ⟨hmp, by rw [Bool.not_eq_true']; exact hclean.2⟩ this
      · intro e2 he2 hclean
        rw [isCleanCandidate, Bool.and_eq_true, Bool.not_eq_true'] at hclean
        exact hmax e2 (mem_sorted_candidates.mpr ⟨he2, hclean.1⟩)
          (by rw [Bool.not_eq_true']; exact hclean.2)

/-- C3: every file the generic-prefix resolution returns comes from a
    matching, non-partial, recognized-container, non-intermediate entry, and
    it is the most recently modified clean mp4 when one exists, else the
    most recently modified clean candidate overall (so an mp4 is preferred
    over every other recognized container). -/
theorem generic_resolution_preference (requestedBase : String)
    (entries : List DirEntry) (fname : String)
    (hok : resolveGenericPrefix requestedBase entries = Except.ok fname) :
    ∃ e ∈ entries, e.name = fname ∧ isCleanCandidate requestedBase e = true ∧
      ((isMp4Name e.name = true ∧
        (∀ e2 ∈ entries, isCleanCandidate requestedBase e2 = true →
          isMp4Name e2.name = true → e2.mtimeMs ≤ e.mtimeMs)) ∨
       (isMp4Name e.name = false ∧
        (∀ e2 ∈ entries, isCleanCandidate requestedBase e2 = true →
          isMp4Name e2.name = false) ∧
        (∀ e2 ∈ entries, isCleanCandidate requestedBase e2 = true →
          e2.mtimeMs ≤ e.mtimeMs))) :=
  resolveGenericPrefix_ok_spec requestedBase entries fname hok

/-- Witness for C3 at a concrete directory snapshot. -/
theorem generic_resolution_preference_witness :
    ∃ e ∈ ([{ name := "video_1.mp4", mtimeMs := 5 }] : List DirEntry),
      e.name = "video_1.mp4" :=
  match generic_resolution_preference "video_1" [{ name := "video_1.mp4", mtimeMs := 5 }]
      "video_1.mp4" rfl with
  | ⟨e, he, hn, _⟩ => ⟨e, he, hn⟩

theorem resolveGenericPrefix_ok_of_clean (requestedBase : String)
    (entries : List DirEntry)
    (h : ∃ e ∈ entries, isCleanCandidate requestedBase e = true) :
    ∃ fname, resolveGenericPrefix requestedBase entries = Except.ok fname := by
  rcases h with ⟨e, he, hclean⟩
  rw [isCleanCandidate, Bool.and_eq_true, Bool.not_eq_true'] at hclean
  have hin : e ∈ sortByMtimeDesc (entries.filter fun x => isCandidateName requestedBase x) :=
    mem_sorted_candidates.mpr ⟨he, hclean.1⟩
  rw [resolveGenericPrefix, candidates_filter]
  simp only
  have hSne : ((sortByMtimeDesc (entries.filter fun x =>
      isCandidateName requestedBase x)).isEmpty) = false := by
    cases hl : sortByMtimeDesc (entries.filter fun x => isCandidateName requestedBase x) with
    | nil => rw [hl] at hin; cases hin
    | cons a t => rfl
  rw [if_neg (by simp [hSne])]
  cases hm4 : (sortByMtimeDesc (entries.filter fun x => isCandidateName requestedBase x)).find?
      (fun x => isMp4Name x.name && !isIntermediateName x.name) with
  | some m =>
    refine ⟨m.name, ?_⟩
    simp [Option.orElse]
  | none =>
    cases hoth : (sortByMtimeDesc (entries.filter fun x =>
        isCandidateName requestedBase x)).find? (fun x => !isIntermediateName x.name) with
    | some m =>
      refine ⟨m.name, ?_⟩
      simp [Option.orElse]
    | none =>
      exact absurd (List.find?_eq_none.mp hoth e hin) (by simp [hclean.2])

/-- C2 counterexample, two parts.  First, with a matching clean mkv newer
    than a matching clean mp4 the resolver returns the mp4, not the most
    recently modified clean entry.  Second, when every matching non-partial
    entry is intermediate but none carries a recognized media extension, the
    resolver raises the not-found error instead of the intermediates-only
    one. -/
theorem resolver_recency_counterexample :
    resolveGenericPrefix "video_1"
      [{ name := "video_1.mkv", mtimeMs := 2 }, { name := "video_1.mp4", mtimeMs := 1 }] =
      Except.ok "video_1.mp4" ∧
    isCleanCandidate "video_1" { name := "video_1.mkv", mtimeMs := 2 } = true ∧
    isCleanCandidate "video_1" { name := "video_1.mp4", mtimeMs := 1 } = true ∧
    (2 : Nat) > 1 ∧
    "video_1.mp4" ≠ "video_1.mkv" ∧
    resolveGenericPrefix "video_1" [{ name := "video_1.f140.m4a", mtimeMs := 3 }] =
      Except.error "Download finished but output video file was not found." ∧
    startsWithB "video_1" "video_1.f140.m4a" = true ∧
    isPartialName "video_1.f140.m4a" = false ∧
    isIntermediateName "video_1.f140.m4a" = true :=
  ⟨rfl, by decide, by decide, by decide, by decide, rfl, by decide, by decide, by decide⟩

/-- C2 amended: among directory entries matching the requested prefix, when
    a non-partial, non-intermediate entry with a recognized media extension
    exists, the generic resolution returns the most recently modified such
    entry within the preferred class (a clean mp4 when one exists, else any
    clean candidate); when matching non-partial recognized-extension entries
    exist but all are intermediates it raises the intermediates-only error;
    when no matching non-partial recognized-extension entry exists it raises
    the not-found error; and resolveFileByPrefix returns null when no
    non-partial matching entry exists at all. -/
theorem resolver_selection (requestedBase : String) (entries : List DirEntry) :
    ((∃ e ∈ entries, isCleanCandidate requestedBase e = true) →
      ∃ e ∈ entries, isCleanCandidate requestedBase e = true ∧
        resolveGenericPrefix requestedBase entries = Except.ok e.name ∧
        ((isMp4Name e.name = true ∧
          (∀ e2 ∈ entries, isCleanCandidate requestedBase e2 = true →
            isMp4Name e2.name = true → e2.mtimeMs ≤ e.mtimeMs)) ∨
         (isMp4Name e.name = false ∧
          (∀ e2 ∈ entries, isCleanCandidate requestedBase e2 = true →
            isMp4Name e2.name = false) ∧
          (∀ e2 ∈ entries, isCleanCandidate requestedBase e2 = true →
            e2.mtimeMs ≤ e.mtimeMs)))) ∧
    ((∃ e ∈ entries, isCandidateName requestedBase e = true) →
      (∀ e ∈ entries, isCandidateName requestedBase e = true →
        isIntermediateName e.name = true) →
      resolveGenericPrefix requestedBase entries =
        Except.error "Only intermediate stream files were found after download.") ∧
    ((∀ e ∈ entries, isCandidateName requestedBase e = false) →
      resolveGenericPrefix requestedBase entries =
        Except.error "Download finished but output video file was not found.") ∧
    ((∀ e ∈ entries, ¬(startsWithB requestedBase e.name = true ∧
        isPartialName e.name = false)) →
      resolveFileByPrefix requestedBase entries = none) := by
  refine ⟨?_, ?_, ?_, ?_⟩
  · intro h
    rcases resolveGenericPrefix_ok_of_clean requestedBase entries h with ⟨fname, hok⟩
    rcases resolveGenericPrefix_ok_spec requestedBase entries fname hok with
      ⟨e, he, hname, hclean, hdisj⟩
    exact ⟨e, he, hclean, hname ▸ hok, hdisj⟩
  · intro h hall
    rcases h with ⟨e, he, hcand⟩
    have hin : e ∈ sortByMtimeDesc (entries.filter fun x =>
        isCandidateName requestedBase x) := mem_sorted_candidates.mpr ⟨he, hcand⟩
    rw [resolveGenericPrefix, candidates_filter]
    simp only
    have hSne : ((sortByMtimeDesc (entries.filter fun x =>
        isCandidateName requestedBase x)).isEmpty) = false := by
      cases hl : sortByMtimeDesc (entries.filter fun x =>
          isCandidateName requestedBase x) with
      | nil => rw [hl] at hin; cases hin
      | cons a t => rfl
    rw [if_neg (by simp [hSne])]
    have h1 : (sortByMtimeDesc (entries.filter fun x =>
        isCandidateName requestedBase x)).find?
        (fun x => isMp4Name x.name && !isIntermediateName x.name) = none := by
      refine List.find?_eq_none.mpr (fun x hx => ?_)
      rcases mem_sorted_candidates.mp hx with ⟨hxe, hxc⟩
      simp [hall x hxe hxc]
    have h2 : (sortByMtimeDesc (entries.filter fun x =>
        isCandidateName requestedBase x)).find?
        (fun x => !isIntermediateName x.name) = none := by
      refine List.find?_eq_none.mpr (fun x hx => ?_)
      rcases mem_sorted_candidates.mp hx with ⟨hxe, hxc⟩
      simp [hall x hxe hxc]
    rw [h1, h2]
    simp [Option.orElse]
  · intro hnone
    rw [resolveGenericPrefix, candidates_filter]
    have hfil : entries.filter (fun e => isCandidateName requestedBase e) = [] :=
      List.filter_eq_nil_iff.mpr (fun e he => by simp [hnone e he])
    rw [hfil]
    rfl
  · intro hnone
    rw [resolveFileByPrefix]
    have hfil : (entries.filter (fun e => startsWithB requestedBase e.name)).filter
        (fun e => !isPartialName e.name) = [] := by
      refine List.filter_eq_nil_iff.mpr (fun e he hpe => ?_)
      rcases List.mem_filter.mp he with ⟨hee, hsw⟩
      exact hnone e hee ⟨hsw, by simpa using hpe⟩
    rw [hfil]
    rfl

/-- Witness for C2 exercising the error parts and the null part of the
    amended statement at concrete directory snapshots. -/
theorem resolver_selection_witness :
    resolveGenericPrefix "video_1" [{ name := "other.mp4", mtimeMs := 1 }] =
      Except.error "Download finished but output video file was not found." ∧
    resolveGenericPrefix "video_1" [{ name := "video_1.f137.mp4", mtimeMs := 2 }] =
      Except.error "Only intermediate stream files were found after download." ∧
    resolveFileByPrefix "video_1" [{ name := "video_1.video.part", mtimeMs := 2 }] = none ∧
    (∃ e ∈ ([{ name := "video_1.webm", mtimeMs := 7 }] : List DirEntry),
      isCleanCandidate "video_1" e = true) :=
  ⟨(resolver_selection "video_1" [{ name := "other.mp4", mtimeMs := 1 }]).2.2.1
      (by decide),
   (resolver_selection "video_1" [{ name := "video_1.f137.mp4", mtimeMs := 2 }]).2.1
      (by decide) (by decide),
   (resolver_selection "video_1" [{ name := "video_1.video.part", mtimeMs := 2 }]).2.2.2
      (by decide),
   match (resolver_selection "video_1" [{ name := "video_1.webm", mtimeMs := 7 }]).1
      (by decide) with
   | ⟨e, he, hclean, _⟩ => ⟨e, he, hclean⟩⟩

theorem stripPrefCI_decomp {lit : List Char} : ∀ {s r : List Char},
    stripPrefCI lit s = some r →
    ∃ pre, s = pre ++ r ∧ pre.map Char.toLower = lit := by
  induction lit with
  | nil =>
    intro s r h
    rw [stripPrefCI] at h
    injection h with h
    exact ⟨[], by simp [h], rfl⟩
  | cons l ls ih =>
    intro s r h
    cases s with
    | nil => rw [stripPrefCI] at h; cases h
    | cons c cs =>
      rw [stripPrefCI] at h
      by_cases hc : (l == c.toLower) = true
      · rw [if_pos hc] at h
        rcases ih h with ⟨pre, hpre, hmap⟩
        refine ⟨c :: pre, by rw [List.cons_append, hpre], ?_⟩
        rw [List.map_cons, hmap, beq_iff_eq.mp hc]
      · rw [if_neg hc] at h; cases h

theorem takeId_decomp : ∀ {n : Nat} {s r : List Char},
    takeId n s = some r →
    ∃ v, s = v ++ r ∧ v.length = n ∧ ∀ c ∈ v, isIdChar c = true := by
  intro n
  induction n with
  | zero =>
    intro s r h
    rw [takeId] at h
    injection h with h
    exact ⟨[], by simp [h], rfl, by simp⟩
  | succ n ih =>
    intro s r h
    cases s with
    | nil => rw [takeId] at h; cases h
    | cons c cs =>
      rw [takeId] at h
      by_cases hc : isIdChar c = true
      · rw [if_pos hc] at h
        rcases ih h with ⟨v, hv, hl, hall⟩
        refine ⟨c :: v, by rw [List.cons_append, hv], by simp [hl], ?_⟩
        intro x hx
        rcases List.mem_cons.mp hx with rfl | hxv
        · exact hc
        · exact hall x hxv
      · rw [if_neg hc] at h; cases h

theorem dropNonSpace_decomp : ∀ s : List Char,
    ∃ w, s = w ++ dropNonSpace s ∧ ∀ c ∈ w, isJsSpace c = false := by
  intro s
  induction s with
  | nil => exact ⟨[], rfl, by simp⟩
  | cons c cs ih =>
    by_cases hc : isJsSpace c = true
    · refine ⟨[], ?_, by simp⟩
      rw [dropNonSpace, if_pos hc]
      rfl
    · rcases ih with ⟨w, hw, hall⟩
      refine ⟨c :: w, ?_, ?_⟩
      · rw [dropNonSpace, if_neg hc, List.cons_append, ← hw]
      · intro x hx
        rcases List.mem_cons.mp hx with rfl | hxw
        · simpa using hc
        · exact hall x hxw

theorem matchHostBranch_decomp {lit : List Char} {s r : List Char}
    (h : matchHostBranch lit s = some r) :
    ∃ host vid tl, s = host ++ vid ++ tl ++ r ∧ host.map Char.toLower = lit ∧
      vid.length = 11 ∧ (∀ c ∈ vid, isIdChar c = true) ∧
      (∀ c ∈ tl, isJsSpace c = false) := by
  rw [matchHostBranch] at h
  cases h1 : stripPrefCI lit s with
  | none => rw [h1] at h; cases h
  | some r1 =>
    rw [h1] at h
    simp only [Option.bind] at h
    cases h2 : takeId 11 r1 with
    | none => simp [h2] at h
    | some r2 =>
      rw [h2, Option.map_some'] at h
      injection h with h
      rcases stripPrefCI_decomp h1 with ⟨host, hs, hmap⟩
      rcases takeId_decomp h2 with ⟨vid, hr1, hlen, hid⟩
      rcases dropNonSpace_decomp r2 with ⟨tl, hr2, hsp⟩
      refine ⟨host, vid, tl, ?_, hmap, hlen, hid, hsp⟩
      rw [hs, hr1, ← h]
      conv_lhs => rw [hr2]
      simp [List.append_assoc]

theorem matchHosts_decomp {s r : List Char} (h : matchHosts s = some r) :
    ∃ host vid tl, s = host ++ vid ++ tl ++ r ∧
      (host.map Char.toLower = "youtube.com/watch?v=".data ∨
        host.map Char.toLower = "youtu.be/".data) ∧
      vid.length = 11 ∧ (∀ c ∈ vid, isIdChar c = true) ∧
      (∀ c ∈ tl, isJsSpace c = false) := by
  rw [matchHosts] at h
  cases hb : matchHostBranch "youtube.com/watch?v=".data s with
  | some r1 =>
    rw [hb] at h
    injection h with h
    subst h
    rcases matchHostBranch_decomp hb with ⟨host, vid, tl, hsd, hmap, hlen, hid, hsp⟩
    exact ⟨host, vid, tl, hsd, Or.inl hmap, hlen, hid, hsp⟩
  | none =>
    rw [hb] at h
    have h2 : matchHostBranch "youtu.be/".data s = some r := h
    rcases matchHostBranch_decomp h2 with ⟨host, vid, tl, hsd, hmap, hlen, hid, hsp⟩
    exact ⟨host, vid, tl, hsd, Or.inr hmap, hlen, hid, hsp⟩

theorem matchAfterScheme_decomp {s r : List Char} (h : matchAfterScheme s = some r) :
    ∃ www host vid tl, s = www ++ host ++ vid ++ tl ++ r ∧
      (www.map Char.toLower = "www.".data ∨ www = []) ∧
      (host.map Char.toLower = "youtube.com/watch?v=".data ∨
        host.map Char.toLower = "youtu.be/".data) ∧
      vid.length = 11 ∧ (∀ c ∈ vid, isIdChar c = true) ∧
      (∀ c ∈ tl, isJsSpace c = false) := by
  rw [matchAfterScheme] at h
  cases hww : stripPrefCI "www.".data s with
  | some r1 =>
    rw [hww] at h
    have h4 : (matchHosts r1).orElse (fun _ => matchHosts s) = some r := h
    cases hmh : matchHosts r1 with
    | some r2 =>
      rw [hmh] at h4
      injection h4 with h4
      subst h4
      rcases stripPrefCI_decomp hww with ⟨www, hs1, hwmap⟩
      rcases matchHosts_decomp hmh with ⟨host, vid, tl, hr1, hhost, hlen, hid, hsp⟩
      refine ⟨www, host, vid, tl, ?_, Or.inl hwmap, hhost, hlen, hid, hsp⟩
      rw [hs1, hr1]
      simp [List.append_assoc]
    | none =>
      rw [hmh] at h4
      have h2 : matchHosts s = some r := h4
      rcases matchHosts_decomp h2 with ⟨host, vid, tl, hsd, hhost, hlen, hid, hsp⟩
      exact ⟨[], host, vid, tl, by simpa using hsd, Or.inr rfl, hhost, hlen, hid, hsp⟩
  | none =>
    rw [hww] at h
    have h3 : matchHosts s = some r := h
    rcases matchHosts_decomp h3 with ⟨host, vid, tl, hsd, hhost, hlen, hid, hsp⟩
    exact ⟨[], host, vid, tl, by simpa using hsd, Or.inr rfl, hhost, hlen, hid, hsp⟩

theorem matchAfterHttp_colon_decomp {s r : List Char}
    (h : (stripPrefCI "://".data s).bind matchAfterScheme = some r) :
    ∃ sep www host vid tl, s = sep ++ www ++ host ++ vid ++ tl ++ r ∧
      sep.map Char.toLower = "://".data ∧
      (www.map Char.toLower = "www.".data ∨ www = []) ∧
      (host.map Char.toLower = "youtube.com/watch?v=".data ∨
        host.map Char.toLower = "youtu.be/".data) ∧
      vid.length = 11 ∧ (∀ c ∈ vid, isIdChar c = true) ∧
      (∀ c ∈ tl, isJsSpace c = false) := by
  cases hs2 : stripPrefCI "://".data s with
  | none => rw [hs2] at h; cases h
  | some r1 =>
    rw [hs2] at h
    have h2 : matchAfterScheme r1 = some r := h
    rcases stripPrefCI_decomp hs2 with ⟨sep, hs1, hsmap⟩
    rcases matchAfterScheme_decomp h2 with ⟨www, host, vid, tl, hr1, hw, hh, hl, hi, ht⟩
    refine ⟨sep, www, host, vid, tl, ?_, hsmap, hw, hh, hl, hi, ht⟩
    rw [hs1, hr1]
    simp [List.append_assoc]

theorem matchAfterHttp_decomp {s r : List Char} (h : matchAfterHttp s = some r) :
    ∃ sep www host vid tl, s = sep ++ www ++ host ++ vid ++ tl ++ r ∧
      (sep.map Char.toLower = "s://".data ∨ sep.map Char.toLower = "://".data) ∧
      (www.map Char.toLower = "www.".data ∨ www = []) ∧
      (host.map Char.toLower = "youtube.com/watch?v=".data ∨
        host.map Char.toLower = "youtu.be/".data) ∧
      vid.length = 11 ∧ (∀ c ∈ vid, isIdChar c = true) ∧
      (∀ c ∈ tl, isJsSpace c = false) := by
  rw [matchAfterHttp] at h
  cases hs1 : stripPrefCI "s://".data s with
  | some r1 =>
    rw [hs1] at h
    have h4 : (matchAfterScheme r1).orElse
        (fun _ => (stripPrefCI "://".data s).bind matchAfterScheme) = some r := h
    cases hAS : matchAfterScheme r1 with
    | some r2 =>
      rw [hAS] at h4
      injection h4 with h4
      subst h4
      rcases stripPrefCI_decomp hs1 with ⟨sep, hsd, hsmap⟩
      rcases matchAfterScheme_decomp hAS with ⟨www, host, vid, tl, hr1, hw, hh, hl, hi, ht⟩
      refine ⟨sep, www, host, vid, tl, ?_, Or.inl hsmap, hw, hh, hl, hi, ht⟩
      rw [hsd, hr1]
      simp [List.append_assoc]
    | none =>
      rw [hAS] at h4
      have h2 : (stripPrefCI "://".data s).bind matchAfterScheme = some r := h4
      rcases matchAfterHttp_colon_decomp h2 with
        ⟨sep, www, host, vid, tl, hsd, hsmap, hw, hh, hl, hi, ht⟩
      exact ⟨sep, www, host, vid, tl, hsd, Or.inr hsmap, hw, hh, hl, hi, ht⟩
  | none =>
    rw [hs1] at h
    have h2 : (stripPrefCI "://".data s).bind matchAfterScheme = some r := h
    rcases matchAfterHttp_colon_decomp h2 with
      ⟨sep, www, host, vid, tl, hsd, hsmap, hw, hh, hl, hi, ht⟩
    exact ⟨sep, www, host, vid, tl, hsd, Or.inr hsmap, hw, hh, hl, hi, ht⟩

theorem matchHere_decomp {s r : List Char} (h : matchHere s = some r) :
    ∃ body, s = body ++ r ∧ YouTubeMatchShape body := by
  rw [matchHere] at h
  cases hh : stripPrefCI "http".data s with
  | none => rw [hh] at h; cases h
  | some r1 =>
    rw [hh] at h
    have h2 : matchAfterHttp r1 = some r := h
    rcases stripPrefCI_decomp hh with ⟨pre, hsd, hpmap⟩
    rcases matchAfterHttp_decomp h2 with ⟨sep, www, host, vid, tl, hr1, hsep, hw, hhst, hl, hi, ht⟩
    refine ⟨pre ++ sep ++ www ++ host ++ vid ++ tl, ?_, ?_⟩
    · rw [hsd, hr1]
      simp [List.append_assoc]
    · refine ⟨pre ++ sep, www, host, vid, tl, by simp [List.append_assoc], ?_, hw, hhst, hl, hi, ht⟩
      rw [List.map_append, hpmap]
      rcases hsep with hsep | hsep
      · rw [hsep]
        exact Or.inr (by decide)
      · rw [hsep]
        exact Or.inl (by decide)

theorem firstMatch_decomp : ∀ {s m : List Char}, firstMatch s = some m →
    ∃ pre rem, s = pre ++ m ++ rem ∧ YouTubeMatchShape m := by
  intro s
  induction s with
  | nil => intro m h; rw [firstMatch] at h; cases h
  | cons c cs ih =>
    intro m h
    rw [firstMatch] at h
    cases hm : matchHere (c :: cs) with
    | some rem =>
      rw [hm] at h
      injection h with h
      rcases matchHere_decomp hm with ⟨body, hbody, hshape⟩
      have hlen : (c :: cs).length - rem.length = body.length := by
        rw [hbody, List.length_append]
        omega
      have hbm : m = body := by
        rw [← h, hlen, hbody, List.take_left]
      exact ⟨[], rem, by rw [hbm, hbody]; rfl, hbm ▸ hshape⟩
    | none =>
      rw [hm] at h
      rcases ih h with ⟨pre, rem, hpre, hshape⟩
      exact ⟨c :: pre, rem, by simp [hpre], hshape⟩

/-- C10: every extracted link is an http or https link to one of the two
    recognized hosts with a video id of exactly eleven word-or-hyphen
    characters followed by a whitespace-free tail, occurring as a substring
    of the message text; missing or empty text, a shorts-style link and a
    link with a too-short id all yield null, and a null extraction means the
    handler creates no job and performs no action. -/
theorem extract_url_only_links :
    (∀ t u : String, extractYouTubeUrl (some t) = some u →
      ∃ pre rem, t.data = pre ++ u.data ++ rem ∧ YouTubeMatchShape u.data) ∧
    extractYouTubeUrl none = none ∧
    extractYouTubeUrl (some "") = none ∧
    extractYouTubeUrl (some "https://www.youtube.com/shorts/dQw4w9WgXcQ") = none ∧
    extractYouTubeUrl (some "watch https://youtu.be/shortid now") = none ∧
    (∀ (msgText : Option String) (chatId messageId now : Nat)
        (downloadResult : Except JsError (String × Bool)) (fileSize : Nat),
      extractYouTubeUrl (some (msgText.getD "")) = none →
      handleMessage msgText chatId messageId now downloadResult fileSize = []) := by
  refine ⟨?_, rfl, by decide, by decide, by decide, ?_⟩
  · intro t u h
    rw [extractYouTubeUrl] at h
    by_cases ht : t = ""
    · rw [if_pos ht] at h; cases h
    · rw [if_neg ht] at h
      cases hf : firstMatch t.data with
      | none => rw [hf] at h; cases h
      | some m =>
        rw [hf] at h
        rw [Option.map_some'] at h
        injection h with h
        rcases firstMatch_decomp hf with ⟨pre, rem, hdec, hshape⟩
        refine ⟨pre, rem, ?_, ?_⟩
        · rw [← h]; exact hdec
        · rw [← h]; exact hshape
  · intro msgText chatId messageId now downloadResult fileSize h
    simp [handleMessage, h]

/-- Witness for C10: a concrete extraction decomposes as required, and a
    concrete link-free message yields no handler actions. -/
theorem extract_url_only_links_witness :
    (∃ pre rem, ("see https://youtu.be/dQw4w9WgXcQ ok" : String).data =
      pre ++ ("https://youtu.be/dQw4w9WgXcQ" : String).data ++ rem ∧
      YouTubeMatchShape ("https://youtu.be/dQw4w9WgXcQ" : String).data) ∧
    handleMessage (some "hello world") 4 5 6 (Except.ok ("f.mp4", false)) 17 = [] :=
  ⟨extract_url_only_links.1 "see https://youtu.be/dQw4w9WgXcQ ok"
      "https://youtu.be/dQw4w9WgXcQ" (by decide),
   extract_url_only_links.2.2.2.2.2 (some "hello world") 4 5 6
      (Except.ok ("f.mp4", false)) 17 (by decide)⟩
